import Mathlib

/-!
Verification of the lexer of the `sc` compiler (package `lexer`).

The package scans source text of a small imperative language into a stream
of tokens.  The lexer is built on Go's `text/scanner`: it repeatedly calls
`Scan`, which skips whitespace and comments, classifies the next lexeme
(identifier, decimal integer, or a single character), records the position
of the lexeme's first character, and keeps a one-rune lookahead.  On top of
that, the lexer's state machine (`lexSource` and friends) turns scan results
into typed tokens, tracks brace/paren nesting, and reports lexical errors as
`Error` tokens in the stream.

The embedding below models the `text/scanner` fragment the lexer exercises:
ASCII identifiers (`_`, letters, then also digits), decimal integer
literals, line (`//`) and block comments, the Go whitespace set
(space, tab, newline, carriage return), and single-character tokens,
with the scanner's exact position bookkeeping (`line`, `column`,
`lastLineLen`, `lastCharLen`, and the token `Position` determination).
Quote/backtick literals and float/hex numbers of `text/scanner` are outside
the language and are not modelled (such characters fall to the
single-character default, as they never occur in the language's sources).
Loops carry an explicit fuel argument so that all definitions compute by
kernel reduction; every call site passes fuel exceeding the maximal number
of iterations (each iteration consumes at least one input character).
-/

namespace ScLexer

/-- One scanner state, mirroring the fields of `text/scanner.Scanner` used
by the lexer: the unread input, the one-rune lookahead (`none` = not yet
read, `some none` = end of input, `some (some c)` = rune `c`), the reading
position bookkeeping, and the public token position/text of the most
recently scanned token. -/
structure Scanner where
  src : List Char
  ch : Option (Option Char)
  line : Nat
  column : Nat
  lastLineLen : Nat
  lastCharLen : Nat
  posLine : Nat
  posColumn : Nat
  tokText : String
  deriving Repr, DecidableEq

/-- Reading one rune, mirroring `Scanner.next`: advance the column, and on a
newline bump the line, record the just-finished line's length and reset the
column.  At end of input the column is advanced once (when a rune was read
before) and `lastCharLen` is cleared, so repeated reads are idempotent. -/
def Scanner.next (s : Scanner) : Option Char × Scanner :=
  match s.src with
  | [] =>
      if s.lastCharLen > 0 then
        (none, { s with column := s.column + 1, lastCharLen := 0 })
      else
        (none, s)
  | c :: rest =>
      if c = '\n' then
        (some c, { s with src := rest, lastCharLen := 1,
                          line := s.line + 1, lastLineLen := s.column + 1,
                          column := 0 })
      else
        (some c, { s with src := rest, lastCharLen := 1,
                          column := s.column + 1 })

/-- Mirroring `Scanner.Peek`: return the cached lookahead, reading (and
caching) one rune when none is cached yet. -/
def Scanner.peekCh (s : Scanner) : Option Char × Scanner :=
  match s.ch with
  | some v => (v, s)
  | none =>
      let p := s.next
      (p.1, { p.2 with ch := some p.1 })

/-- The Go whitespace set `GoWhitespace`: blank, tab, line feed, carriage
return. -/
def isWhite : Char → Bool
  | ' ' => true
  | '\t' => true
  | '\n' => true
  | '\r' => true
  | _ => false

/-- Mirroring `isIdentRune ch 0`: an identifier may start with an underscore
or a letter. -/
def isIdentStart (c : Char) : Bool :=
  c == '_' || c.isAlpha

/-- Mirroring `isIdentRune ch i` for `i > 0`: after the first rune, digits
are also allowed. -/
def isIdentCont (c : Char) : Bool :=
  c == '_' || c.isAlpha || c.isDigit

/-- The whitespace-skipping loop at the top of `Scanner.Scan`. -/
def skipWs : Nat → Option Char → Scanner → Option Char × Scanner
  | 0, ch, s => (ch, s)
  | f + 1, ch, s =>
      match ch with
      | some c =>
          if isWhite c then
            let p := s.next
            skipWs f p.1 p.2
          else
            (some c, s)
      | none => (none, s)

/-- The identifier-scanning loop of `scanIdentifier`: collect runes while
they may continue an identifier; the first rune was already accepted by the
dispatch in `Scan`. -/
def identLoop : Nat → List Char → Option Char → Scanner →
    List Char × Option Char × Scanner
  | 0, acc, ch, s => (acc, ch, s)
  | f + 1, acc, ch, s =>
      match ch with
      | some c =>
          if isIdentCont c then
            let p := s.next
            identLoop f (acc ++ [c]) p.1 p.2
          else
            (acc, some c, s)
      | none => (acc, none, s)

/-- The decimal-digit loop of the scanner's number scanning, for the integer
literals of the language. -/
def numberLoop : Nat → List Char → Option Char → Scanner →
    List Char × Option Char × Scanner
  | 0, acc, ch, s => (acc, ch, s)
  | f + 1, acc, ch, s =>
      match ch with
      | some c =>
          if c.isDigit then
            let p := s.next
            numberLoop f (acc ++ [c]) p.1 p.2
          else
            (acc, some c, s)
      | none => (acc, none, s)

/-- The line-comment loop of `scanComment`: consume runes up to and
including nothing past the terminating newline (the newline itself becomes
the lookahead), or stop at end of input. -/
def lineCommentLoop : Nat → Option Char → Scanner → Option Char × Scanner
  | 0, ch, s => (ch, s)
  | f + 1, ch, s =>
      match ch with
      | some c =>
          if c = '\n' then
            (some c, s)
          else
            let p := s.next
            lineCommentLoop f p.1 p.2
      | none => (none, s)

/-- The block-comment loop of `scanComment`: consume runes until the first
closing marker, then read one more rune as the new lookahead; an unclosed
comment stops at end of input. -/
def blockCommentLoop : Nat → Option Char → Scanner → Option Char × Scanner
  | 0, ch, s => (ch, s)
  | f + 1, ch, s =>
      match ch with
      | none => (none, s)
      | some c0 =>
          let p := s.next
          if c0 = '*' ∧ p.1 = some '/' then
            p.2.next
          else
            blockCommentLoop f p.1 p.2

/-- The token-position determination of `Scanner.Scan`: normally the
line/column of the token's first (already read) rune; when no rune was ever
read the position is the zero position `(0, 0)`. -/
def Scanner.posDet (s : Scanner) : Nat × Nat :=
  if s.column > 0 then (s.line, s.column) else (s.line - 1, s.lastLineLen)

/-- The classification returned by `Scanner.Scan`: end of input, an
identifier, an integer literal, or a single character. -/
inductive ScanTok where
  | eof
  | ident
  | int
  | chr (c : Char)
  deriving Repr, DecidableEq

/-- The body of `Scanner.Scan` after the initial `Peek`, including the
`redo` loop that restarts scanning after a skipped comment.  Each branch
records the token position and text and caches the final lookahead. -/
def scanRedo : Nat → Option Char → Scanner → ScanTok × Scanner
  | 0, ch, s => (.eof, { s with ch := some ch, tokText := "" })
  | f + 1, ch, s =>
      let w := skipWs (s.src.length + 1 + 1) ch s
      let s1 := w.2
      let p := s1.posDet
      match w.1 with
      | none =>
          (.eof, { s1 with ch := some none, tokText := "",
                           posLine := p.1, posColumn := p.2 })
      | some c =>
          if isIdentStart c then
            let r := identLoop (s1.src.length + 1 + 1) [] (some c) s1
            (.ident, { r.2.2 with ch := some r.2.1, tokText := String.mk r.1,
                                  posLine := p.1, posColumn := p.2 })
          else if c.isDigit then
            let r := numberLoop (s1.src.length + 1 + 1) [] (some c) s1
            (.int, { r.2.2 with ch := some r.2.1, tokText := String.mk r.1,
                                posLine := p.1, posColumn := p.2 })
          else if c = '/' then
            let q := s1.next
            if q.1 = some '/' then
              let q2 := q.2.next
              let r := lineCommentLoop (q2.2.src.length + 1 + 1) q2.1 q2.2
              scanRedo f r.1 r.2
            else if q.1 = some '*' then
              let q2 := q.2.next
              let r := blockCommentLoop (q2.2.src.length + 1 + 1) q2.1 q2.2
              scanRedo f r.1 r.2
            else
              (.chr '/', { q.2 with ch := some q.1, tokText := String.mk [c],
                                    posLine := p.1, posColumn := p.2 })
          else
            let q := s1.next
            (.chr c, { q.2 with ch := some q.1, tokText := String.mk [c],
                                posLine := p.1, posColumn := p.2 })

/-- Mirroring `Scanner.Scan`: read the lookahead, then classify the next
lexeme, updating the public token position and text. -/
def Scanner.scan (s : Scanner) : ScanTok × Scanner :=
  let p := s.peekCh
  scanRedo (p.2.src.length + 1 + 1) p.1 p.2

/-- The token categories of the lexer, mirroring the `Type` enumeration of
the source (including the `While` keyword kind). -/
inductive TokType where
  | EOF
  | Error
  | Ident
  | False
  | Number
  | True
  | Else
  | If
  | Var
  | While
  | Bool
  | Int
  | Assign
  | Multiply
  | Divide
  | Plus
  | Minus
  | Less
  | LessOrEqual
  | Greater
  | GreaterOrEqual
  | Equal
  | NotEqual
  | Not
  | And
  | Or
  | LeftParen
  | RightParen
  | LeftBrace
  | RightBrace
  deriving Repr, DecidableEq

/-- A token: position (filename label, 1-based line and column of the first
character), matched text (a diagnostic message for error tokens), and
category.  Mirrors the source's `Token`. -/
structure Token where
  file : String
  line : Nat
  column : Nat
  text : String
  typ : TokType
  deriving Repr, DecidableEq

/-- The keyword table of the source (`keywords`), mapping exact identifier
text to its keyword kind. -/
def keywords : List (String × TokType) :=
  [("bool", .Bool), ("else", .Else), ("false", .False), ("if", .If),
   ("int", .Int), ("true", .True), ("var", .Var), ("while", .While)]

/-- The lexer state, mirroring `Lexer`: the filename label, the underlying
scanner, and the brace/paren nesting counters (Go `int`s, modelled as
`Int`). -/
structure LexState where
  file : String
  sc : Scanner
  braces : Int
  parens : Int
  deriving Repr, DecidableEq

/-- Mirroring `emitHere`: a token at the scanner's current token position
with the scanner's current token text. -/
def emitHere (l : LexState) (t : TokType) : Token :=
  ⟨l.file, l.sc.posLine, l.sc.posColumn, l.sc.tokText, t⟩

/-- Mirroring `errorf`: an `Error` token at the scanner's current token
position carrying a diagnostic message. -/
def errToken (l : LexState) (msg : String) : Token :=
  ⟨l.file, l.sc.posLine, l.sc.posColumn, msg, .Error⟩

/-- Mirroring `lexIdent`: look the identifier text up in the keyword table
and emit the mapped keyword kind, or `Ident` when absent. -/
def lexIdent (l : LexState) : Token :=
  emitHere l ((List.lookup l.sc.tokText keywords).getD .Ident)

/-- Mirroring `emitIfNext`: when the lookahead matches `r`, scan it and emit
one token of kind `t1` whose text concatenates both lexemes and whose
position is that of the first; otherwise emit the current token with kind
`t2`. -/
def emitIfNext (l : LexState) (r : Char) (t1 t2 : TokType) : Token × LexState :=
  let p := l.sc.peekCh
  if p.1 = some r then
    let line := p.2.posLine
    let col := p.2.posColumn
    let text := p.2.tokText
    let sc2 := (p.2.scan).2
    (⟨l.file, line, col, text ++ sc2.tokText, t1⟩, { l with sc := sc2 })
  else
    (⟨l.file, p.2.posLine, p.2.posColumn, p.2.tokText, t2⟩, { l with sc := p.2 })

/-- Mirroring `expect`: when the lookahead matches `r`, scan it and emit one
token of kind `t` as in `emitIfNext`; otherwise emit an error token with
message `err` without consuming the lookahead. -/
def expect (l : LexState) (r : Char) (t : TokType) (err : String) :
    Token × LexState :=
  let p := l.sc.peekCh
  if p.1 = some r then
    let line := p.2.posLine
    let col := p.2.posColumn
    let text := p.2.tokText
    let sc2 := (p.2.scan).2
    (⟨l.file, line, col, text ++ sc2.tokText, t⟩, { l with sc := sc2 })
  else
    (errToken { l with sc := p.2 } err, { l with sc := p.2 })

/-- Mirroring `lexLeftBrace`: increment the brace nesting and emit
`LeftBrace`. -/
def lexLeftBrace (l : LexState) : Token × LexState :=
  let l2 : LexState := { l with braces := l.braces + 1 }
  (emitHere l2 .LeftBrace, l2)

/-- Mirroring `lexRightBrace`: decrement the brace nesting first; when the
result is negative emit an error token, otherwise emit `RightBrace`. -/
def lexRightBrace (l : LexState) : Token × LexState :=
  let l2 : LexState := { l with braces := l.braces - 1 }
  if l2.braces < 0 then
    (errToken l2 "unexpected \x7d", l2)
  else
    (emitHere l2 .RightBrace, l2)

/-- Mirroring `lexLeftParen`: increment the paren nesting and emit
`LeftParen`. -/
def lexLeftParen (l : LexState) : Token × LexState :=
  let l2 : LexState := { l with parens := l.parens + 1 }
  (emitHere l2 .LeftParen, l2)

/-- Mirroring `lexRightParen`: decrement the paren nesting first; when the
result is negative emit an error token, otherwise emit `RightParen`. -/
def lexRightParen (l : LexState) : Token × LexState :=
  let l2 : LexState := { l with parens := l.parens - 1 }
  if l2.parens < 0 then
    (errToken l2 "unexpected )", l2)
  else
    (emitHere l2 .RightParen, l2)

/-- One full iteration of the lexer's state machine (`lexSource` together
with the sub-state it selects): scan one lexeme and emit exactly one token,
returning the scan classification, the token, and the next state. -/
def lexStep (l : LexState) : ScanTok × Token × LexState :=
  let sr := l.sc.scan
  let l1 : LexState := { l with sc := sr.2 }
  match sr.1 with
  | .eof => (.eof, emitHere l1 .EOF, l1)
  | .ident => (.ident, lexIdent l1, l1)
  | .int => (.int, emitHere l1 .Number, l1)
  | .chr c =>
      let r :=
        if c = '*' then (emitHere l1 .Multiply, l1)
        else if c = '/' then (emitHere l1 .Divide, l1)
        else if c = '+' then (emitHere l1 .Plus, l1)
        else if c = '-' then (emitHere l1 .Minus, l1)
        else if c = '=' then emitIfNext l1 '=' .Equal .Assign
        else if c = '<' then emitIfNext l1 '=' .LessOrEqual .Less
        else if c = '>' then emitIfNext l1 '=' .GreaterOrEqual .Greater
        else if c = '!' then emitIfNext l1 '=' .NotEqual .Not
        else if c = '&' then expect l1 '&' .And "expected && operator"
        else if c = '|' then expect l1 '|' .Or "expected || operator"
        else if c = '\x7b' then lexLeftBrace l1
        else if c = '\x7d' then lexRightBrace l1
        else if c = '(' then lexLeftParen l1
        else if c = ')' then lexRightParen l1
        else (errToken l1 ("unrecognized token " ++ l1.sc.tokText), l1)
      (.chr c, r.1, r.2)

/-- Mirroring `run`: iterate the state machine, collecting the emitted
tokens; after the end-of-file token the stream is closed (nothing follows).
Insufficient fuel yields the empty stream. -/
def lexRun : Nat → LexState → List Token
  | 0, _ => []
  | f + 1, l =>
      let st := lexStep l
      if st.1 = .eof then [st.2.1] else st.2.1 :: lexRun f st.2.2

/-- The initial lexer state for `Lex(filename, src)`: a fresh scanner over
the input with nothing read yet, and both nesting counters at zero. -/
def initLex (file : String) (src : String) : LexState :=
  ⟨file, ⟨src.data, none, 1, 0, 0, 0, 0, 0, ""⟩, 0, 0⟩

/-- Mirroring `Lex`: the complete token stream for an input, as the list of
tokens emitted until (and including) the end-of-file token. -/
def Lex (file : String) (src : String) : List Token :=
  lexRun (src.data.length + 1 + 1) (initLex file src)

/-- The scan classification of one state-machine iteration. -/
def stepCls (l : LexState) : ScanTok := (lexStep l).1

/-- The token emitted by one state-machine iteration. -/
def stepTok (l : LexState) : Token := (lexStep l).2.1

/-- The lexer state after one state-machine iteration. -/
def stepState (l : LexState) : LexState := (lexStep l).2.2

/-- Number of characters held by a threaded lookahead value. -/
def chAvail : Option Char → Nat
  | some _ => 1
  | none => 0

/-- Number of characters held by the scanner's lookahead cache. -/
def cacheAvail : Option (Option Char) → Nat
  | some (some _) => 1
  | _ => 0

/-- Total unconsumed characters of a scanner: the unread input plus a cached
lookahead rune, the measure that decreases at every emitted non-EOF
token. -/
def availS (s : Scanner) : Nat := cacheAvail s.ch + s.src.length

/-- Whether a scan classification is a brace lexeme. -/
def isBraceCls : ScanTok → Bool
  | .chr c => c == '\x7b' || c == '\x7d'
  | _ => false

/-- Whether a scan classification is a paren lexeme. -/
def isParenCls : ScanTok → Bool
  | .chr c => c == '(' || c == ')'
  | _ => false

/-- The source-level name of each token category, as printed by the
generated stringer for the `Type` enumeration. -/
def TokTypeName : TokType → String
  | .EOF => "EOF"
  | .Error => "Error"
  | .Ident => "Ident"
  | .False => "False"
  | .Number => "Number"
  | .True => "True"
  | .Else => "Else"
  | .If => "If"
  | .Var => "Var"
  | .While => "While"
  | .Bool => "Bool"
  | .Int => "Int"
  | .Assign => "Assign"
  | .Multiply => "Multiply"
  | .Divide => "Divide"
  | .Plus => "Plus"
  | .Minus => "Minus"
  | .Less => "Less"
  | .LessOrEqual => "LessOrEqual"
  | .Greater => "Greater"
  | .GreaterOrEqual => "GreaterOrEqual"
  | .Equal => "Equal"
  | .NotEqual => "NotEqual"
  | .Not => "Not"
  | .And => "And"
  | .Or => "Or"
  | .LeftParen => "LeftParen"
  | .RightParen => "RightParen"
  | .LeftBrace => "LeftBrace"
  | .RightBrace => "RightBrace"

/-- The keyword texts of the specification's keyword table (section 6),
written from the spec's words for comparison with the source's
`keywords`. -/
def specKeywordTexts : List String :=
  ["bool", "else", "false", "for", "if", "int", "true", "var"]

/-- The token-kind names of the specification's kind enumeration
(section 6), written from the spec's words for comparison with the
source's `Type` enumeration. -/
def specKindNames : List String :=
  ["EOF", "Error", "Ident", "False", "Number", "True", "Else", "If", "Var",
   "For", "Bool", "Int", "Assign", "Multiply", "Divide", "Plus", "Minus",
   "Less", "LessOrEqual", "Greater", "GreaterOrEqual", "Equal", "NotEqual",
   "Not", "And", "Or", "LeftParen", "RightParen", "LeftBrace", "RightBrace"]

/-- A complete scan: the lexer state machine, started in state `l`, runs to
termination and emits exactly the token sequence `ts`.  This is the
observable producer relation of `run`: one token per iteration, closing the
stream right after the end-of-file token. -/
inductive Produces : LexState → List Token → Prop where
  | eof (l : LexState) (tok : Token) (l2 : LexState)
      (h : lexStep l = (.eof, tok, l2)) : Produces l [tok]
  | more (l : LexState) (cls : ScanTok) (tok : Token) (l2 : LexState)
      (ts : List Token) (h : lexStep l = (cls, tok, l2)) (hne : cls ≠ .eof)
      (hts : Produces l2 ts) : Produces l (tok :: ts)

/-! Validation of the embedding against the lexer's own test vectors
(`lexer_test.go`): identifiers, literals, operators, delimiters, and
comment handling, with exact kinds, texts, lines and columns. -/

example : (Lex "t" "a foo _a _1 a1 ifelse").map
    (fun t => (t.typ, t.text, t.line, t.column)) =
    [(.Ident, "a", 1, 1), (.Ident, "foo", 1, 3), (.Ident, "_a", 1, 7),
     (.Ident, "_1", 1, 10), (.Ident, "a1", 1, 13), (.Ident, "ifelse", 1, 16),
     (.EOF, "", 1, 22)] := by decide

example : (Lex "t" "42 35 true false").map
    (fun t => (t.typ, t.text, t.line, t.column)) =
    [(.Number, "42", 1, 1), (.Number, "35", 1, 4), (.True, "true", 1, 7),
     (.False, "false", 1, 12), (.EOF, "", 1, 17)] := by decide

example : (Lex "t" "= * / + - < <= == != >= > && || !").map
    (fun t => (t.typ, t.text, t.line, t.column)) =
    [(.Assign, "=", 1, 1), (.Multiply, "*", 1, 3), (.Divide, "/", 1, 5),
     (.Plus, "+", 1, 7), (.Minus, "-", 1, 9), (.Less, "<", 1, 11),
     (.LessOrEqual, "<=", 1, 13), (.Equal, "==", 1, 16),
     (.NotEqual, "!=", 1, 19), (.GreaterOrEqual, ">=", 1, 22),
     (.Greater, ">", 1, 25), (.And, "&&", 1, 27), (.Or, "||", 1, 30),
     (.Not, "!", 1, 33), (.EOF, "", 1, 34)] := by decide

example : (Lex "t" "\x7b\x7d()").map
    (fun t => (t.typ, t.text, t.line, t.column)) =
    [(.LeftBrace, "\x7b", 1, 1), (.RightBrace, "\x7d", 1, 2),
     (.LeftParen, "(", 1, 3), (.RightParen, ")", 1, 4),
     (.EOF, "", 1, 5)] := by decide

example : (Lex "t" "a // comment\nb").map
    (fun t => (t.typ, t.text, t.line, t.column)) =
    [(.Ident, "a", 1, 1), (.Ident, "b", 2, 1), (.EOF, "", 2, 2)] := by decide

example : (Lex "t" "a /* x \n x */ b c/* x */d").map
    (fun t => (t.typ, t.text, t.line, t.column)) =
    [(.Ident, "a", 1, 1), (.Ident, "b", 2, 7), (.Ident, "c", 2, 9),
     (.Ident, "d", 2, 17), (.EOF, "", 2, 18)] := by decide

/-- Claim C3: lexing the input consisting of a lone ampersand, a lone pipe,
an unmatched closing brace, an unmatched closing paren, and a question mark
yields exactly the five documented error tokens at the positions of the
offending characters, followed by the end-of-file token — every lexical
error is local and the scan continues after each error token. -/
theorem c3_error_stream : Lex "t" "& | \x7d ) ?" =
    [⟨"t", 1, 1, "expected && operator", .Error⟩,
     ⟨"t", 1, 3, "expected || operator", .Error⟩,
     ⟨"t", 1, 5, "unexpected \x7d", .Error⟩,
     ⟨"t", 1, 7, "unexpected )", .Error⟩,
     ⟨"t", 1, 9, "unrecognized token ?", .Error⟩,
     ⟨"t", 1, 10, "", .EOF⟩] := by decide

/-- Claim C7, counterexample: lexing the empty input yields exactly one
token, an end-of-file token with zero-length text, but its position is
line 0, column 0 (the scanner's zero position, since no character was ever
read) — not line 1, column 1 as the claim states. -/
theorem c7_counterexample :
    Lex "f" "" = [⟨"f", 0, 0, "", .EOF⟩] ∧
    Lex "f" "" ≠ [⟨"f", 1, 1, "", .EOF⟩] := by decide

/-- Claim C7, amended: lexing the empty input produces exactly one token,
an end-of-file token with zero-length text at line 0, column 0. -/
theorem c7_empty_input (file : String) :
    Lex file "" = [⟨file, 0, 0, "", .EOF⟩] := rfl

/-- Claim C2: evaluation of the code at the claim's input.  The keyword
table of the source has no entry for the text "for" (it maps "while"
instead), so lexing the input yields seven keyword tokens followed by an
`Ident` token for "for" — the repository's own test table and Readme expect
a `For` keyword kind here, which the source's `Type` enumeration does not
even contain. -/
theorem c2_for_lexes_as_ident :
    (Lex "t" "bool else false if int true var for").map
      (fun t => (t.typ, t.text)) =
    [(.Bool, "bool"), (.Else, "else"), (.False, "false"), (.If, "if"),
     (.Int, "int"), (.True, "true"), (.Var, "var"), (.Ident, "for"),
     (.EOF, "")] ∧
    List.lookup "for" keywords = none := by decide

/-- Claim C9: the source's keyword table maps the text "while" to the
keyword kind `While`, which the lexer emits for the identifier lexeme
"while"; neither the text "while" nor the kind name "While" occurs in the
specification's keyword table or kind enumeration, which instead list "for"
and "For". -/
theorem c9_while_keyword :
    List.lookup "while" keywords = some TokType.While ∧
    (Lex "t" "while").map (fun t => (t.typ, t.text)) =
      [(.While, "while"), (.EOF, "")] ∧
    TokTypeName .While = "While" ∧
    "while" ∉ specKeywordTexts ∧
    "While" ∉ specKindNames ∧
    "for" ∈ specKeywordTexts ∧
    "For" ∈ specKindNames := by decide

/-- Claim C1, counterexample: scanning a closing brace at depth 0 emits an
error token but decrements the brace counter to -1 instead of leaving it
at 0; consequently, in the input consisting of an unmatched closing brace
followed by a matching brace pair, the final closing brace is NOT tokenized
as `RightBrace` — it produces a second "unexpected \x7d" error. -/
theorem c1_counterexample :
    (lexStep (initLex "t" "\x7d")).2.2.braces = -1 ∧
    (Lex "t" "\x7d \x7b \x7d").map (fun t => t.typ) =
      [.Error, .LeftBrace, .Error, .EOF] ∧
    (Lex "t" "\x7d \x7b \x7d").map (fun t => t.typ) ≠
      [.Error, .LeftBrace, .RightBrace, .EOF] := by decide

/-- The helper `emitIfNext` touches only the scanner: both nesting counters are
unchanged. -/
theorem emitIfNext_counters (l : LexState) (r : Char) (t1 t2 : TokType) :
    ((emitIfNext l r t1 t2).2).braces = l.braces ∧
    ((emitIfNext l r t1 t2).2).parens = l.parens := by
  simp only [emitIfNext]
  split <;> simp

/-- The helper `expect` touches only the scanner: both nesting counters are
unchanged. -/
theorem expect_counters (l : LexState) (r : Char) (t : TokType) (e : String) :
    ((expect l r t e).2).braces = l.braces ∧
    ((expect l r t e).2).parens = l.parens := by
  simp only [expect]
  split <;> simp [errToken]

/-- The sub-state `lexRightBrace` decrements the brace counter and leaves the paren
counter alone, in the error case as well. -/
theorem lexRightBrace_counters (l : LexState) :
    ((lexRightBrace l).2).braces = l.braces - 1 ∧
    ((lexRightBrace l).2).parens = l.parens := by
  simp only [lexRightBrace]
  split <;> simp

/-- The sub-state `lexRightParen` decrements the paren counter and leaves the brace
counter alone, in the error case as well. -/
theorem lexRightParen_counters (l : LexState) :
    ((lexRightParen l).2).parens = l.parens - 1 ∧
    ((lexRightParen l).2).braces = l.braces := by
  simp only [lexRightParen]
  split <;> simp

/-- Claim C1, amended: scanning a closing brace (resp. paren) when the
corresponding depth counter is 0 emits an `Error` token with text
"unexpected \x7d" (resp. "unexpected )"), but the counter is decremented to
-1 rather than left unchanged at 0 — the depth does go negative, and the
other counter is untouched.  (Hence a subsequent matching open/close pair
re-errors, as the counterexample shows concretely.) -/
theorem c1_depth_goes_negative (l : LexState) (hb : l.braces = 0)
    (hp : l.parens = 0) :
    ((l.sc.scan).1 = .chr '\x7d' →
      (stepTok l).typ = .Error ∧ (stepTok l).text = "unexpected \x7d" ∧
      (stepState l).braces = -1 ∧ (stepState l).parens = 0) ∧
    ((l.sc.scan).1 = .chr ')' →
      (stepTok l).typ = .Error ∧ (stepTok l).text = "unexpected )" ∧
      (stepState l).parens = -1 ∧ (stepState l).braces = 0) := by
  constructor <;> intro h <;>
    simp only [stepTok, stepState, lexStep, h] <;>
    simp [lexRightBrace, lexRightParen, errToken, emitHere, hb, hp]

/-- Peeking caches the lookahead without changing the reported token
position (line). -/
theorem peekCh_posLine (s : Scanner) : ((s.peekCh).2).posLine = s.posLine := by
  rw [Scanner.peekCh]
  rcases s.ch with _ | v
  · rw [Scanner.next]
    rcases hs : s.src with _ | ⟨c, rest⟩ <;> simp <;> split <;> simp
  · simp

/-- Peeking caches the lookahead without changing the reported token
position (column). -/
theorem peekCh_posColumn (s : Scanner) :
    ((s.peekCh).2).posColumn = s.posColumn := by
  rw [Scanner.peekCh]
  rcases s.ch with _ | v
  · rw [Scanner.next]
    rcases hs : s.src with _ | ⟨c, rest⟩ <;> simp <;> split <;> simp
  · simp

/-- Peeking caches the lookahead without changing the token text. -/
theorem peekCh_tokText (s : Scanner) : ((s.peekCh).2).tokText = s.tokText := by
  rw [Scanner.peekCh]
  rcases s.ch with _ | v
  · rw [Scanner.next]
    rcases hs : s.src with _ | ⟨c, rest⟩ <;> simp <;> split <;> simp
  · simp

/-- When the scan loop classifies a lexeme as the single character `c`, the
recorded token text is exactly that character. -/
theorem scanRedo_chr_text : ∀ (f : Nat) (ch : Option Char) (s : Scanner)
    (c : Char), (scanRedo f ch s).1 = ScanTok.chr c →
    (scanRedo f ch s).2.tokText = String.mk [c] := by
  intro f
  induction f with
  | zero => intro ch s c h; simp [scanRedo] at h
  | succ f ih =>
      intro ch s c h
      rcases hr : scanRedo (f + 1) ch s with ⟨cls, s2⟩
      rw [hr] at h
      simp only at h
      subst h
      simp only [scanRedo] at hr
      repeat' split at hr
      all_goals
        first
          | (have hx := ih _ _ c (by rw [hr])
             rw [hr] at hx
             exact hx)
          | (rw [Prod.mk.injEq] at hr
             obtain ⟨hc, hs⟩ := hr
             injection hc with hc2
             subst hc2
             subst hs
             simp_all)
          | simp_all

/-- When `Scan` classifies a lexeme as the single character `c`, the token
text it records is exactly that character. -/
theorem scan_chr_text (s : Scanner) (c : Char) (h : (s.scan).1 = .chr c) :
    (s.scan).2.tokText = String.mk [c] := by
  unfold Scanner.scan at h ⊢
  exact scanRedo_chr_text _ _ _ _ h

/-- When `emitIfNext` finds the expected rune, the emitted token carries the
position and text of the already-scanned first lexeme extended by the second
character, with the first kind. -/
theorem emitIfNext_hit (l : LexState) (r : Char) (t1 t2 : TokType)
    (h2 : (l.sc.peekCh).1 = some r)
    (h3 : ((l.sc.peekCh).2.scan).1 = ScanTok.chr r) :
    (emitIfNext l r t1 t2).1 =
      ⟨l.file, l.sc.posLine, l.sc.posColumn,
       l.sc.tokText ++ String.mk [r], t1⟩ := by
  have hpl := peekCh_posLine l.sc
  have hpc := peekCh_posColumn l.sc
  have htt := peekCh_tokText l.sc
  have hsecond := scan_chr_text (l.sc.peekCh).2 r h3
  simp only [emitIfNext]
  rw [if_pos h2]
  simp [hpl, hpc, htt, hsecond]

/-- When `expect` finds the expected rune, the emitted token carries the
position and text of the already-scanned first lexeme extended by the
second character. -/
theorem expect_hit (l : LexState) (r : Char) (t : TokType) (e : String)
    (h2 : (l.sc.peekCh).1 = some r)
    (h3 : ((l.sc.peekCh).2.scan).1 = ScanTok.chr r) :
    (expect l r t e).1 =
      ⟨l.file, l.sc.posLine, l.sc.posColumn,
       l.sc.tokText ++ String.mk [r], t⟩ := by
  have hpl := peekCh_posLine l.sc
  have hpc := peekCh_posColumn l.sc
  have htt := peekCh_tokText l.sc
  have hsecond := scan_chr_text (l.sc.peekCh).2 r h3
  simp only [expect]
  rw [if_pos h2]
  simp [hpl, hpc, htt, hsecond]

/-- When `expect` does not find the expected rune, it emits an error token
at the current token position and changes nothing but the lookahead cache:
the resulting lexer state is the one right after the peek, so the peeked
character remains available as the start of the next lexeme. -/
theorem expect_miss (l : LexState) (r : Char) (t : TokType) (e : String)
    (h2 : ¬ (l.sc.peekCh).1 = some r) :
    (expect l r t e).1 = ⟨l.file, l.sc.posLine, l.sc.posColumn, e, .Error⟩ ∧
    (expect l r t e).2 = { l with sc := (l.sc.peekCh).2 } := by
  simp only [expect]
  rw [if_neg h2]
  constructor
  · simp [errToken, peekCh_posLine, peekCh_posColumn]
  · rfl

/-- Claim C10: the two nesting counters are independent and only delimiter
lexemes touch them.  A scanned brace lexeme leaves the paren counter
unchanged, a scanned paren lexeme leaves the brace counter unchanged, any
other scanned lexeme (identifier, number, operator, error-producing
character, end of file) leaves both unchanged, and each delimiter's effect
on its own counter is exactly the increment/decrement of the source. -/
theorem c10_counter_frame (l : LexState) :
    (isBraceCls (stepCls l) = false → (stepState l).braces = l.braces) ∧
    (isParenCls (stepCls l) = false → (stepState l).parens = l.parens) ∧
    (stepCls l = .chr '\x7b' → (stepState l).braces = l.braces + 1) ∧
    (stepCls l = .chr '\x7d' → (stepState l).braces = l.braces - 1) ∧
    (stepCls l = .chr '(' → (stepState l).parens = l.parens + 1) ∧
    (stepCls l = .chr ')' → (stepState l).parens = l.parens - 1) := by
  rcases hsc : l.sc.scan with ⟨cls, sc2⟩
  cases cls with
  | eof => simp [stepCls, stepState, lexStep, hsc, isBraceCls, isParenCls]
  | ident => simp [stepCls, stepState, lexStep, hsc, isBraceCls, isParenCls]
  | int => simp [stepCls, stepState, lexStep, hsc, isBraceCls, isParenCls]
  | chr c =>
      refine ⟨?_, ?_, ?_, ?_, ?_, ?_⟩ <;>
        simp only [stepCls, stepState, lexStep, hsc] <;> intro h
      · by_cases h1 : c = '*'
        · subst h1; rfl
        by_cases h2 : c = '/'
        · subst h2; rfl
        by_cases h3 : c = '+'
        · subst h3; rfl
        by_cases h4 : c = '-'
        · subst h4; rfl
        by_cases h5 : c = '='
        · subst h5; exact (emitIfNext_counters _ _ _ _).1
        by_cases h6 : c = '<'
        · subst h6; exact (emitIfNext_counters _ _ _ _).1
        by_cases h7 : c = '>'
        · subst h7; exact (emitIfNext_counters _ _ _ _).1
        by_cases h8 : c = '!'
        · subst h8; exact (emitIfNext_counters _ _ _ _).1
        by_cases h9 : c = '&'
        · subst h9; exact (expect_counters _ _ _ _).1
        by_cases h10 : c = '|'
        · subst h10; exact (expect_counters _ _ _ _).1
        by_cases h11 : c = '\x7b'
        · subst h11; exact absurd h (by decide)
        by_cases h12 : c = '\x7d'
        · subst h12; exact absurd h (by decide)
        by_cases h13 : c = '('
        · subst h13; rfl
        by_cases h14 : c = ')'
        · subst h14; exact (lexRightParen_counters _).2
        simp only [if_neg h1, if_neg h2, if_neg h3, if_neg h4, if_neg h5,
          if_neg h6, if_neg h7, if_neg h8, if_neg h9, if_neg h10, if_neg h11,
          if_neg h12, if_neg h13, if_neg h14]
      · by_cases h1 : c = '*'
        · subst h1; rfl
        by_cases h2 : c = '/'
        · subst h2; rfl
        by_cases h3 : c = '+'
        · subst h3; rfl
        by_cases h4 : c = '-'
        · subst h4; rfl
        by_cases h5 : c = '='
        · subst h5; exact (emitIfNext_counters _ _ _ _).2
        by_cases h6 : c = '<'
        · subst h6; exact (emitIfNext_counters _ _ _ _).2
        by_cases h7 : c = '>'
        · subst h7; exact (emitIfNext_counters _ _ _ _).2
        by_cases h8 : c = '!'
        · subst h8; exact (emitIfNext_counters _ _ _ _).2
        by_cases h9 : c = '&'
        · subst h9; exact (expect_counters _ _ _ _).2
        by_cases h10 : c = '|'
        · subst h10; exact (expect_counters _ _ _ _).2
        by_cases h11 : c = '\x7b'
        · subst h11; rfl
        by_cases h12 : c = '\x7d'
        · subst h12; exact (lexRightBrace_counters _).2
        by_cases h13 : c = '('
        · subst h13; exact absurd h (by decide)
        by_cases h14 : c = ')'
        · subst h14; exact absurd h (by decide)
        simp only [if_neg h1, if_neg h2, if_neg h3, if_neg h4, if_neg h5,
          if_neg h6, if_neg h7, if_neg h8, if_neg h9, if_neg h10, if_neg h11,
          if_neg h12, if_neg h13, if_neg h14]
      · injection h with hc; subst hc; rfl
      · injection h with hc; subst hc; exact (lexRightBrace_counters _).1
      · injection h with hc; subst hc; rfl
      · injection h with hc; subst hc; exact (lexRightParen_counters _).1
/-- Claim C4: whenever a valid two-character operator is the next lexeme —
the scanner classifies the first character as one of the operator heads and
the lookahead holds the matching second character — the emitted token's text
is the full two-character sequence and its position is the scanner-reported
position of the first of the two characters. -/
theorem c4_two_char_operators (l : LexState) (c r : Char) (t1 : TokType)
    (hmem : (c, r, t1) ∈
      [('=', '=', TokType.Equal), ('<', '=', TokType.LessOrEqual),
       ('>', '=', TokType.GreaterOrEqual), ('!', '=', TokType.NotEqual),
       ('&', '&', TokType.And), ('|', '|', TokType.Or)])
    (h1 : (l.sc.scan).1 = .chr c)
    (h2 : (((l.sc.scan).2).peekCh).1 = some r)
    (h3 : (((((l.sc.scan).2).peekCh).2).scan).1 = .chr r) :
    stepTok l = ⟨l.file, ((l.sc.scan).2).posLine, ((l.sc.scan).2).posColumn,
      String.mk [c, r], t1⟩ := by
  rcases hsc : l.sc.scan with ⟨cls, sc1⟩
  rw [hsc] at h1 h2 h3
  simp only at h1 h2 h3
  subst h1
  have htext : sc1.tokText = String.mk [c] := by
    have hx := scan_chr_text l.sc c (by rw [hsc])
    rw [hsc] at hx
    exact hx
  simp only [stepTok, lexStep, hsc]
  simp only [List.mem_cons, List.not_mem_nil, or_false, Prod.mk.injEq] at hmem
  rcases hmem with h | h | h | h | h | h <;> obtain ⟨rfl, rfl, rfl⟩ := h <;>
    first
      | exact (emitIfNext_hit { l with sc := sc1 } _ _ _ h2 h3).trans
          (by simp [htext])
      | exact (expect_hit { l with sc := sc1 } _ _ _ h2 h3).trans
          (by simp [htext])

/-- Witness for claim C4: on the concrete input consisting of the two
characters of the equality operator, the emitted token is `Equal` with text
spanning both characters at the position of the first. -/
theorem c4_witness :
    stepTok (initLex "w" "==") = ⟨"w", 1, 1, "==", .Equal⟩ :=
  (c4_two_char_operators (initLex "w" "==") '=' '=' .Equal (by decide)
      (by decide) (by decide) (by decide)).trans (by decide)

/-- Claim C5: when the scanner scans an ampersand and the immediately
following rune is not another ampersand, the lexer emits an `Error` token
with message "expected && operator" at the ampersand's position and does not
consume the following character — the lexer state after the step carries
exactly the scanner obtained from peeking, so the peeked character remains
available as the start of the next lexeme; symmetrically for the pipe with
message "expected || operator".  Both nesting counters are untouched. -/
theorem c5_malformed_operator (l : LexState) (c : Char) (msg : String)
    (hmem : (c, msg) ∈
      [('&', "expected && operator"), ('|', "expected || operator")])
    (h1 : (l.sc.scan).1 = .chr c)
    (h2 : ¬ (((l.sc.scan).2).peekCh).1 = some c) :
    stepTok l = ⟨l.file, ((l.sc.scan).2).posLine, ((l.sc.scan).2).posColumn,
      msg, .Error⟩ ∧
    (stepState l).sc = (((l.sc.scan).2).peekCh).2 ∧
    (stepState l).braces = l.braces ∧
    (stepState l).parens = l.parens := by
  rcases hsc : l.sc.scan with ⟨cls, sc1⟩
  rw [hsc] at h1 h2
  simp only at h1 h2
  subst h1
  simp only [stepTok, stepState, lexStep, hsc]
  simp only [List.mem_cons, List.not_mem_nil, or_false, Prod.mk.injEq] at hmem
  rcases hmem with ⟨rfl, rfl⟩ | ⟨rfl, rfl⟩ <;>
    refine ⟨(expect_miss { l with sc := sc1 } _ _ _ h2).1, ?_, ?_, ?_⟩ <;>
    first
      | exact congrArg LexState.sc (expect_miss { l with sc := sc1 } _ _ _ h2).2
      | exact (expect_counters _ _ _ _).1
      | exact (expect_counters _ _ _ _).2

/-- Witness for claim C5: on the concrete input of an ampersand followed by
a minus sign, the step emits the documented error token, and the full scan
still tokenizes the following minus sign as `Minus` — the character after
the ampersand was not consumed. -/
theorem c5_witness :
    stepTok (initLex "w" "&-") = ⟨"w", 1, 1, "expected && operator", .Error⟩ ∧
    Lex "w" "&-" = [⟨"w", 1, 1, "expected && operator", .Error⟩,
      ⟨"w", 1, 2, "-", .Minus⟩, ⟨"w", 1, 3, "", .EOF⟩] :=
  ⟨(c5_malformed_operator (initLex "w" "&-") '&' "expected && operator"
      (by decide) (by decide) (by decide)).1.trans (by decide), by decide⟩

/-- Witness for claim C1: on the concrete input of a single closing brace,
the step emits an `Error` token and the brace counter ends at -1. -/
theorem c1_witness :
    (stepTok (initLex "w" "\x7d")).typ = .Error ∧
    (stepState (initLex "w" "\x7d")).braces = -1 := by
  have h := (c1_depth_goes_negative (initLex "w" "\x7d") rfl rfl).1 (by decide)
  exact ⟨h.1, h.2.2.1⟩

/-- Witness for claim C10: on concrete inputs, scanning an opening paren
increments only the paren counter, and scanning an identifier leaves the
brace counter unchanged. -/
theorem c10_witness :
    (stepState (initLex "w" "(")).parens = (initLex "w" "(").parens + 1 ∧
    (stepState (initLex "w" "x")).braces = (initLex "w" "x").braces :=
  ⟨(c10_counter_frame (initLex "w" "(")).2.2.2.2.1 (by decide),
   (c10_counter_frame (initLex "w" "x")).1 (by decide)⟩

/-- A cached lookahead holds as many characters as the threaded value. -/
theorem cacheAvail_some (oc : Option Char) : cacheAvail (some oc) = chAvail oc := by
  cases oc <;> rfl

/-- Reading one rune conserves characters: the returned rune plus the
remaining input account exactly for the input before the read. -/
theorem next_avail (s : Scanner) :
    chAvail (s.next).1 + (s.next).2.src.length = s.src.length := by
  rw [Scanner.next]
  rcases hsrc : s.src with _ | ⟨c, rest⟩ <;> dsimp only <;>
    split <;> (try simp [chAvail, hsrc]) <;> omega

/-- Whitespace skipping never increases the number of unconsumed
characters. -/
theorem skipWs_avail (f : Nat) : ∀ (ch : Option Char) (s : Scanner),
    chAvail (skipWs f ch s).1 + (skipWs f ch s).2.src.length ≤
      chAvail ch + s.src.length := by
  induction f with
  | zero => intro ch s; simp [skipWs]
  | succ f ih =>
      intro ch s
      simp only [skipWs]
      cases ch with
      | none => simp
      | some c =>
          try dsimp only
          split
          · have h1 := ih (s.next).1 (s.next).2
            have h2 := next_avail s
            have hc : chAvail (some c) = 1 := rfl
            omega
          · simp [chAvail]

/-- The identifier loop never increases the number of unconsumed
characters. -/
theorem identLoop_avail (f : Nat) : ∀ (acc : List Char) (ch : Option Char)
    (s : Scanner),
    chAvail (identLoop f acc ch s).2.1 +
      (identLoop f acc ch s).2.2.src.length ≤ chAvail ch + s.src.length := by
  induction f with
  | zero => intro acc ch s; simp [identLoop]
  | succ f ih =>
      intro acc ch s
      simp only [identLoop]
      cases ch with
      | none => simp
      | some c =>
          try dsimp only
          split
          · have h1 := ih (acc ++ [c]) (s.next).1 (s.next).2
            have h2 := next_avail s
            have hc : chAvail (some c) = 1 := rfl
            omega
          · simp [chAvail]

/-- The number loop never increases the number of unconsumed
characters. -/
theorem numberLoop_avail (f : Nat) : ∀ (acc : List Char) (ch : Option Char)
    (s : Scanner),
    chAvail (numberLoop f acc ch s).2.1 +
      (numberLoop f acc ch s).2.2.src.length ≤ chAvail ch + s.src.length := by
  induction f with
  | zero => intro acc ch s; simp [numberLoop]
  | succ f ih =>
      intro acc ch s
      simp only [numberLoop]
      cases ch with
      | none => simp
      | some c =>
          try dsimp only
          split
          · have h1 := ih (acc ++ [c]) (s.next).1 (s.next).2
            have h2 := next_avail s
            have hc : chAvail (some c) = 1 := rfl
            omega
          · simp [chAvail]

/-- The line-comment loop never increases the number of unconsumed
characters. -/
theorem lineCommentLoop_avail (f : Nat) : ∀ (ch : Option Char) (s : Scanner),
    chAvail (lineCommentLoop f ch s).1 +
      (lineCommentLoop f ch s).2.src.length ≤ chAvail ch + s.src.length := by
  induction f with
  | zero => intro ch s; simp [lineCommentLoop]
  | succ f ih =>
      intro ch s
      simp only [lineCommentLoop]
      cases ch with
      | none => simp
      | some c =>
          try dsimp only
          split
          · simp [chAvail]
          · have h1 := ih (s.next).1 (s.next).2
            have h2 := next_avail s
            have hc : chAvail (some c) = 1 := rfl
            omega

/-- The block-comment loop never increases the number of unconsumed
characters. -/
theorem blockCommentLoop_avail (f : Nat) : ∀ (ch : Option Char) (s : Scanner),
    chAvail (blockCommentLoop f ch s).1 +
      (blockCommentLoop f ch s).2.src.length ≤ chAvail ch + s.src.length := by
  induction f with
  | zero => intro ch s; simp [blockCommentLoop]
  | succ f ih =>
      intro ch s
      simp only [blockCommentLoop]
      cases ch with
      | none => simp
      | some c =>
          try dsimp only
          split
          · have h1 := next_avail (s.next).2
            have h2 := next_avail s
            have hc : chAvail (some c) = 1 := rfl
            omega
          · have h1 := ih (s.next).1 (s.next).2
            have h2 := next_avail s
            have hc : chAvail (some c) = 1 := rfl
            omega

/-- An identifier-start rune may also continue an identifier. -/
theorem identStart_cont (c : Char) (h : isIdentStart c = true) :
    isIdentCont c = true := by
  simp only [isIdentStart, Bool.or_eq_true] at h
  simp only [isIdentCont, Bool.or_eq_true]
  tauto

/-- Entering the identifier loop on an accepted rune consumes at least that
rune. -/
theorem identLoop_avail_strict (s : Scanner) (c : Char)
    (h : isIdentCont c = true) :
    chAvail (identLoop (s.src.length + 1 + 1) [] (some c) s).2.1 +
      (identLoop (s.src.length + 1 + 1) [] (some c) s).2.2.src.length + 1 ≤
    1 + s.src.length := by
  have hunfold : identLoop (s.src.length + 1 + 1) [] (some c) s =
      if isIdentCont c then
        identLoop (s.src.length + 1) ([] ++ [c]) (s.next).1 (s.next).2
      else ([], some c, s) := rfl
  rw [hunfold, if_pos h]
  have h1 := identLoop_avail (s.src.length + 1) ([] ++ [c]) (s.next).1 (s.next).2
  have h2 := next_avail s
  have h3 : chAvail (s.next).1 ≤ 1 := by cases hn : (s.next).1 <;> simp [chAvail]
  omega

/-- Entering the number loop on an accepted digit consumes at least that
digit. -/
theorem numberLoop_avail_strict (s : Scanner) (c : Char)
    (h : c.isDigit = true) :
    chAvail (numberLoop (s.src.length + 1 + 1) [] (some c) s).2.1 +
      (numberLoop (s.src.length + 1 + 1) [] (some c) s).2.2.src.length + 1 ≤
    1 + s.src.length := by
  have hunfold : numberLoop (s.src.length + 1 + 1) [] (some c) s =
      if c.isDigit then
        numberLoop (s.src.length + 1) ([] ++ [c]) (s.next).1 (s.next).2
      else ([], some c, s) := rfl
  rw [hunfold, if_pos h]
  have h1 := numberLoop_avail (s.src.length + 1) ([] ++ [c]) (s.next).1 (s.next).2
  have h2 := next_avail s
  omega

/-- The scan loop never increases the number of unconsumed characters, and
any non-EOF classification consumes at least one character. -/
theorem scanRedo_avail : ∀ (f : Nat) (ch : Option Char) (s : Scanner),
    availS (scanRedo f ch s).2 ≤ chAvail ch + s.src.length ∧
    ((scanRedo f ch s).1 ≠ .eof →
      availS (scanRedo f ch s).2 + 1 ≤ chAvail ch + s.src.length) := by
  intro f
  induction f with
  | zero =>
      intro ch s
      refine ⟨?_, fun hcon => ?_⟩
      · simp [scanRedo, availS, cacheAvail_some]
      · simp [scanRedo] at hcon
  | succ f ih =>
      intro ch s
      have hw := skipWs_avail (s.src.length + 1 + 1) ch s
      simp only [scanRedo]
      rcases hw1 : (skipWs (s.src.length + 1 + 1) ch s).1 with _ | c1
      · try dsimp only
        have hn : chAvail (none : Option Char) = 0 := rfl
        rw [hw1] at hw
        constructor
        · simp only [availS]
          try dsimp only
          have h0 : cacheAvail (some (none : Option Char)) = 0 := rfl
          omega
        · intro hcon
          simp at hcon
      · try dsimp only
        rw [hw1] at hw
        have hc1 : chAvail (some c1) = 1 := rfl
        set s1 := (skipWs (s.src.length + 1 + 1) ch s).2 with hs1def
        by_cases hi : isIdentStart c1 = true
        · rw [if_pos hi]
          have hst := identLoop_avail_strict s1 c1 (identStart_cont c1 hi)
          constructor
        
          · simp only [availS]
            try dsimp only
            rw [cacheAvail_some]
            omega
          · intro _
            simp only [availS]
            try dsimp only
            rw [cacheAvail_some]
            omega
        · rw [if_neg hi]
          by_cases hd : c1.isDigit = true
          · rw [if_pos hd]
            have hst := numberLoop_avail_strict s1 c1 hd
            constructor
            · simp only [availS]
              try dsimp only
              rw [cacheAvail_some]
              omega
            · intro _
              simp only [availS]
              try dsimp only
              rw [cacheAvail_some]
              omega
          · rw [if_neg hd]
            by_cases hsl : c1 = '/'
            · rw [if_pos hsl]
              set q := s1.next with hqdef
              have h5 := next_avail s1
              rw [← hqdef] at h5
              by_cases hq : q.1 = some '/'
              · rw [if_pos hq]
                set q2 := q.2.next with hq2def
                set lc := lineCommentLoop (q2.2.src.length + 1 + 1) q2.1 q2.2
                  with hlcdef
                have h4 := next_avail q.2
                rw [← hq2def] at h4
                have hq1 : chAvail q.1 = 1 := by rw [hq]; rfl
                have hlc := lineCommentLoop_avail (q2.2.src.length + 1 + 1) q2.1 q2.2
                rw [← hlcdef] at hlc
                have hihp := (ih lc.1 lc.2).1
                exact ⟨by omega, fun _ => by omega⟩
              · rw [if_neg hq]
                by_cases hq2 : q.1 = some '*'
                · rw [if_pos hq2]
                  set q2 := q.2.next with hq2def
                  set bc := blockCommentLoop (q2.2.src.length + 1 + 1) q2.1 q2.2
                    with hbcdef
                  have h4 := next_avail q.2
                  rw [← hq2def] at h4
                  have hq1 : chAvail q.1 = 1 := by rw [hq2]; rfl
                  have hbc := blockCommentLoop_avail (q2.2.src.length + 1 + 1) q2.1 q2.2
                  rw [← hbcdef] at hbc
                  have hihp := (ih bc.1 bc.2).1
                  exact ⟨by omega, fun _ => by omega⟩
                · rw [if_neg hq2]
                  constructor
                  · simp only [availS]
                    try dsimp only
                    rw [cacheAvail_some]
                    omega
                  · intro _
                    simp only [availS]
                    try dsimp only
                    rw [cacheAvail_some]
                    omega
            · rw [if_neg hsl]
              set q := s1.next with hqdef
              have h5 := next_avail s1
              rw [← hqdef] at h5
              constructor
              · simp only [availS]
                try dsimp only
                rw [cacheAvail_some]
                omega
              · intro _
                simp only [availS]
                try dsimp only
                rw [cacheAvail_some]
                omega

/-- Peeking conserves characters: the peeked rune plus the remaining input
account exactly for the scanner's unconsumed characters. -/
theorem peekCh_nu (s : Scanner) :
    chAvail (s.peekCh).1 + ((s.peekCh).2).src.length = availS s := by
  rcases hch : s.ch with _ | v
  · rw [Scanner.peekCh, hch]
    try dsimp only
    simp only [availS]
    rw [hch]
    have h := next_avail s
    have h0 : cacheAvail (none : Option (Option Char)) = 0 := rfl
    omega
  · rw [Scanner.peekCh, hch]
    try dsimp only
    simp only [availS]
    rw [hch]
    cases v <;> simp [cacheAvail, chAvail]

/-- Peeking moves one rune from the input into the cache, leaving the total
number of unconsumed characters unchanged. -/
theorem peekCh_avail (s : Scanner) : availS ((s.peekCh).2) = availS s := by
  rcases hch : s.ch with _ | v
  · rw [Scanner.peekCh, hch]
    try dsimp only
    simp only [availS]
    rw [cacheAvail_some, hch]
    have h := next_avail s
    have h0 : cacheAvail (none : Option (Option Char)) = 0 := rfl
    omega
  · rw [Scanner.peekCh, hch]

/-- Scanning never increases the number of unconsumed characters, and any
non-EOF scan consumes at least one. -/
theorem scan_avail (s : Scanner) :
    availS (s.scan).2 ≤ availS s ∧
    ((s.scan).1 ≠ .eof → availS (s.scan).2 + 1 ≤ availS s) := by
  have hnu := peekCh_nu s
  have hsr := scanRedo_avail (((s.peekCh).2).src.length + 1 + 1) (s.peekCh).1
    (s.peekCh).2
  rw [Scanner.scan]
  exact ⟨le_trans hsr.1 hnu.le, fun h => le_trans (hsr.2 h) hnu.le⟩

/-- The helper `emitIfNext` never increases the number of unconsumed
characters. -/
theorem emitIfNext_avail (l : LexState) (r : Char) (t1 t2 : TokType) :
    availS ((emitIfNext l r t1 t2).2).sc ≤ availS l.sc := by
  simp only [emitIfNext]
  split
  · exact le_trans (scan_avail ((l.sc.peekCh).2)).1 (peekCh_avail l.sc).le
  · exact (peekCh_avail l.sc).le

/-- The helper `expect` never increases the number of unconsumed
characters. -/
theorem expect_avail (l : LexState) (r : Char) (t : TokType) (e : String) :
    availS ((expect l r t e).2).sc ≤ availS l.sc := by
  simp only [expect]
  split
  · exact le_trans (scan_avail ((l.sc.peekCh).2)).1 (peekCh_avail l.sc).le
  · exact (peekCh_avail l.sc).le

/-- The sub-state `lexRightBrace` leaves the scanner untouched. -/
theorem lexRightBrace_sc (l : LexState) : ((lexRightBrace l).2).sc = l.sc := by
  simp only [lexRightBrace]
  split <;> rfl

/-- The sub-state `lexRightParen` leaves the scanner untouched. -/
theorem lexRightParen_sc (l : LexState) : ((lexRightParen l).2).sc = l.sc := by
  simp only [lexRightParen]
  split <;> rfl

/-- One state-machine iteration never increases the number of unconsumed
characters, and any non-EOF iteration consumes at least one — the
termination measure of the scan. -/
theorem lexStep_avail (l : LexState) :
    availS ((lexStep l).2.2).sc ≤ availS l.sc ∧
    ((lexStep l).1 ≠ .eof →
      availS ((lexStep l).2.2).sc + 1 ≤ availS l.sc) := by
  have hscan := scan_avail l.sc
  rcases hsc : l.sc.scan with ⟨cls, sc1⟩
  rw [hsc] at hscan
  simp only at hscan
  simp only [lexStep, hsc]
  cases cls with
  | eof => exact ⟨hscan.1, fun hcon => absurd rfl hcon⟩
  | ident => exact ⟨hscan.1, fun _ => hscan.2 (by simp)⟩
  | int => exact ⟨hscan.1, fun _ => hscan.2 (by simp)⟩
  | chr c =>
      have hstrict := hscan.2 (by simp)
      have hbr : availS ((if c = '*' then
          (emitHere { l with sc := sc1 } .Multiply, { l with sc := sc1 })
        else if c = '/' then
          (emitHere { l with sc := sc1 } .Divide, { l with sc := sc1 })
        else if c = '+' then
          (emitHere { l with sc := sc1 } .Plus, { l with sc := sc1 })
        else if c = '-' then
          (emitHere { l with sc := sc1 } .Minus, { l with sc := sc1 })
        else if c = '=' then
          emitIfNext { l with sc := sc1 } '=' .Equal .Assign
        else if c = '<' then
          emitIfNext { l with sc := sc1 } '=' .LessOrEqual .Less
        else if c = '>' then
          emitIfNext { l with sc := sc1 } '=' .GreaterOrEqual .Greater
        else if c = '!' then
          emitIfNext { l with sc := sc1 } '=' .NotEqual .Not
        else if c = '&' then
          expect { l with sc := sc1 } '&' .And "expected && operator"
        else if c = '|' then
          expect { l with sc := sc1 } '|' .Or "expected || operator"
        else if c = '\x7b' then lexLeftBrace { l with sc := sc1 }
        else if c = '\x7d' then lexRightBrace { l with sc := sc1 }
        else if c = '(' then lexLeftParen { l with sc := sc1 }
        else if c = ')' then lexRightParen { l with sc := sc1 }
        else (errToken { l with sc := sc1 }
                ("unrecognized token " ++ sc1.tokText),
              { l with sc := sc1 })).2).sc ≤ availS sc1 := by
        by_cases h1 : c = '*'
        · subst h1; exact le_rfl
        by_cases h2 : c = '/'
        · subst h2; exact le_rfl
        by_cases h3 : c = '+'
        · subst h3; exact le_rfl
        by_cases h4 : c = '-'
        · subst h4; exact le_rfl
        by_cases h5 : c = '='
        · subst h5; exact emitIfNext_avail _ _ _ _
        by_cases h6 : c = '<'
        · subst h6; exact emitIfNext_avail _ _ _ _
        by_cases h7 : c = '>'
        · subst h7; exact emitIfNext_avail _ _ _ _
        by_cases h8 : c = '!'
        · subst h8; exact emitIfNext_avail _ _ _ _
        by_cases h9 : c = '&'
        · subst h9; exact expect_avail _ _ _ _
        by_cases h10 : c = '|'
        · subst h10; exact expect_avail _ _ _ _
        by_cases h11 : c = '\x7b'
        · subst h11; exact le_rfl
        by_cases h12 : c = '\x7d'
        · subst h12; exact (congrArg availS (lexRightBrace_sc _)).le
        by_cases h13 : c = '('
        · subst h13; exact le_rfl
        by_cases h14 : c = ')'
        · subst h14; exact (congrArg availS (lexRightParen_sc _)).le
        simp only [if_neg h1, if_neg h2, if_neg h3, if_neg h4, if_neg h5,
          if_neg h6, if_neg h7, if_neg h8, if_neg h9, if_neg h10, if_neg h11,
          if_neg h12, if_neg h13, if_neg h14]
        exact le_rfl
      try dsimp only
      exact ⟨by omega, fun _ => by omega⟩

/-- Keyword lookup never yields the end-of-file kind. -/
theorem lookup_keywords_ne_eof (str : String) :
    (List.lookup str keywords).getD TokType.Ident ≠ TokType.EOF := by
  simp only [keywords, List.lookup]
  repeat' split
  all_goals simp_all

/-- The helper `emitIfNext` never emits an end-of-file token when neither
candidate kind is EOF. -/
theorem emitIfNext_typ_ne (l : LexState) (r : Char) (t1 t2 : TokType)
    (h1 : t1 ≠ TokType.EOF) (h2 : t2 ≠ TokType.EOF) :
    ((emitIfNext l r t1 t2).1).typ ≠ TokType.EOF := by
  simp only [emitIfNext]
  split
  · simpa using h1
  · simpa using h2

/-- The helper `expect` never emits an end-of-file token when the expected
kind is not EOF. -/
theorem expect_typ_ne (l : LexState) (r : Char) (t : TokType) (e : String)
    (h1 : t ≠ TokType.EOF) : ((expect l r t e).1).typ ≠ TokType.EOF := by
  simp only [expect]
  split
  · simpa using h1
  · simp [errToken]

/-- The sub-state `lexRightBrace` never emits an end-of-file token. -/
theorem lexRightBrace_typ_ne (l : LexState) :
    ((lexRightBrace l).1).typ ≠ TokType.EOF := by
  simp only [lexRightBrace]
  split <;> simp [errToken, emitHere]

/-- The sub-state `lexRightParen` never emits an end-of-file token. -/
theorem lexRightParen_typ_ne (l : LexState) :
    ((lexRightParen l).1).typ ≠ TokType.EOF := by
  simp only [lexRightParen]
  split <;> simp [errToken, emitHere]

/-- An iteration classified end-of-input emits a token of kind `EOF`. -/
theorem lexStep_eof_typ (l : LexState) (h : (lexStep l).1 = .eof) :
    ((lexStep l).2.1).typ = TokType.EOF := by
  rcases hsc : l.sc.scan with ⟨cls, sc1⟩
  simp only [lexStep, hsc] at h ⊢
  cases cls with
  | eof => rfl
  | ident => simp at h
  | int => simp at h
  | chr c => simp at h

/-- An iteration not classified end-of-input never emits a token of kind
`EOF`. -/
theorem lexStep_ne_eof_typ (l : LexState) (h : (lexStep l).1 ≠ .eof) :
    ((lexStep l).2.1).typ ≠ TokType.EOF := by
  rcases hsc : l.sc.scan with ⟨cls, sc1⟩
  simp only [lexStep, hsc] at h ⊢
  cases cls with
  | eof => exact absurd rfl h
  | ident => exact lookup_keywords_ne_eof _
  | int => simp [emitHere]
  | chr c =>
      by_cases h1 : c = '*'
      · subst h1; simp [emitHere]
      by_cases h2 : c = '/'
      · subst h2; simp [emitHere]
      by_cases h3 : c = '+'
      · subst h3; simp [emitHere]
      by_cases h4 : c = '-'
      · subst h4; simp [emitHere]
      by_cases h5 : c = '='
      · subst h5; exact emitIfNext_typ_ne _ _ _ _ (by decide) (by decide)
      by_cases h6 : c = '<'
      · subst h6; exact emitIfNext_typ_ne _ _ _ _ (by decide) (by decide)
      by_cases h7 : c = '>'
      · subst h7; exact emitIfNext_typ_ne _ _ _ _ (by decide) (by decide)
      by_cases h8 : c = '!'
      · subst h8; exact emitIfNext_typ_ne _ _ _ _ (by decide) (by decide)
      by_cases h9 : c = '&'
      · subst h9; exact expect_typ_ne _ _ _ _ (by decide)
      by_cases h10 : c = '|'
      · subst h10; exact expect_typ_ne _ _ _ _ (by decide)
      by_cases h11 : c = '\x7b'
      · subst h11; simp [emitHere, lexLeftBrace]
      by_cases h12 : c = '\x7d'
      · subst h12; exact lexRightBrace_typ_ne _
      by_cases h13 : c = '('
      · subst h13; simp [emitHere, lexLeftParen]
      by_cases h14 : c = ')'
      · subst h14; exact lexRightParen_typ_ne _
      simp only [if_neg h1, if_neg h2, if_neg h3, if_neg h4, if_neg h5,
        if_neg h6, if_neg h7, if_neg h8, if_neg h9, if_neg h10, if_neg h11,
        if_neg h12, if_neg h13, if_neg h14]
      simp [errToken]

/-- With sufficient fuel, the state machine always terminates by emitting a
final `EOF` token, with no `EOF` token anywhere before it. -/
theorem lexRun_shape : ∀ (f : Nat) (l : LexState), availS l.sc < f →
    ∃ w t, lexRun f l = w ++ [t] ∧ t.typ = TokType.EOF ∧
      ∀ u ∈ w, u.typ ≠ TokType.EOF := by
  intro f
  induction f with
  | zero => intro l h; omega
  | succ f ih =>
      intro l h
      simp only [lexRun]
      by_cases he : (lexStep l).1 = .eof
      · rw [if_pos he]
        exact ⟨[], (lexStep l).2.1, by simp, lexStep_eof_typ l he, by simp⟩
      · rw [if_neg he]
        have hlt : availS ((lexStep l).2.2).sc < f := by
          have := (lexStep_avail l).2 he
          omega
        obtain ⟨w, t, hw, ht, hne⟩ := ih (lexStep l).2.2 hlt
        refine ⟨(lexStep l).2.1 :: w, t, by simp [hw], ht, ?_⟩
        intro u hu
        rcases List.mem_cons.1 hu with rfl | hu2
        · exact lexStep_ne_eof_typ l he
        · exact hne u hu2

/-- With sufficient fuel, the computed token list is a complete scan in the
sense of the producer relation. -/
theorem lexRun_produces : ∀ (f : Nat) (l : LexState), availS l.sc < f →
    Produces l (lexRun f l) := by
  intro f
  induction f with
  | zero => intro l h; omega
  | succ f ih =>
      intro l h
      simp only [lexRun]
      by_cases he : (lexStep l).1 = .eof
      · rw [if_pos he]
        refine Produces.eof l (lexStep l).2.1 (lexStep l).2.2 ?_
        rw [← he]
      · rw [if_neg he]
        refine Produces.more l (lexStep l).1 (lexStep l).2.1 (lexStep l).2.2 _
          rfl he (ih (lexStep l).2.2 ?_)
        have := (lexStep_avail l).2 he
        omega

/-- The token stream computed by `Lex` is a complete scan of the input. -/
theorem produces_lex (file src : String) :
    Produces (initLex file src) (Lex file src) := by
  apply lexRun_produces
  have h0 : availS (initLex file src).sc = 0 + src.data.length := rfl
  omega

/-- Claim C6: for every input, the token stream is terminated exactly once,
immediately after emitting the end-of-file token — an `EOF` token is always
eventually emitted, it is the last element of the stream, and no token
(in particular no further `EOF`) is produced after it. -/
theorem c6_eof_terminates (file src : String) :
    ∃ w t, Lex file src = w ++ [t] ∧ t.typ = TokType.EOF ∧
      ∀ u ∈ w, u.typ ≠ TokType.EOF := by
  apply lexRun_shape
  have h0 : availS (initLex file src).sc = 0 + src.data.length := rfl
  omega

/-- Claim C8: lexing is a pure function of the input text — any two
complete scans by fresh lexer instances over identical input produce
identical token sequences; no hidden state can make two runs differ. -/
theorem c8_scan_deterministic (file src : String) (ts1 ts2 : List Token)
    (h1 : Produces (initLex file src) ts1)
    (h2 : Produces (initLex file src) ts2) : ts1 = ts2 := by
  have hgen : ∀ (l : LexState) (a : List Token), Produces l a →
      ∀ b, Produces l b → a = b := by
    intro l a ha
    induction ha with
    | eof l0 tok l2 h =>
        intro b hb
        cases hb with
        | eof l0b tok2 l2b hB =>
            rw [h] at hB
            simp only [Prod.mk.injEq] at hB
            rw [hB.2.1]
        | more l0b cls tok2 l2b ts hB hne hts =>
            rw [h] at hB
            simp only [Prod.mk.injEq] at hB
            exact absurd hB.1.symm hne
    | more l0 cls tok l2 ts h hne hts ih =>
        intro b hb
        cases hb with
        | eof l0b tok2 l2b hB =>
            rw [h] at hB
            simp only [Prod.mk.injEq] at hB
            exact absurd hB.1 hne
        | more l0b cls2 tok2 l2b ts2 hB hne2 hts2 =>
            rw [h] at hB
            simp only [Prod.mk.injEq] at hB
            obtain ⟨hcls, htok, hl2⟩ := hB
            subst hl2
            rw [htok, ih ts2 hts2]
  exact hgen _ _ h1 _ h2

/-- Witness for claim C8: on a concrete input, the computed stream and an
explicitly constructed second scan coincide, pinning down the exact token
sequence. -/
theorem c8_witness :
    Lex "w" "a" = [⟨"w", 1, 1, "a", .Ident⟩, ⟨"w", 1, 2, "", .EOF⟩] := by
  have e1 : lexStep (initLex "w" "a") =
      (ScanTok.ident, (⟨"w", 1, 1, "a", TokType.Ident⟩ : Token),
       (lexStep (initLex "w" "a")).2.2) := by decide
  have e2 : lexStep ((lexStep (initLex "w" "a")).2.2) =
      (ScanTok.eof, (⟨"w", 1, 2, "", TokType.EOF⟩ : Token),
       (lexStep ((lexStep (initLex "w" "a")).2.2)).2.2) := by decide
  have hq : Produces (initLex "w" "a")
      [⟨"w", 1, 1, "a", .Ident⟩, ⟨"w", 1, 2, "", .EOF⟩] :=
    Produces.more _ _ _ _ _ e1 (by decide) (Produces.eof _ _ _ e2)
  exact c8_scan_deterministic "w" "a" _ _ (produces_lex "w" "a") hq

end ScLexer
